import Mathlib

/-!
# xliff-merge: the merge of a locale catalog against the English catalog

A shallow embedding of `main.go`: the XLIFF data model (the structs at the end
of the file), the body of the locale loop of `main` (lines 64-123), with the
per-unit decision (lines 91-116) as a function of its own, the discovery of the
locales (lines 50-55) and `readXML` (lines 126-140).

Pointers that may be nil (`*Target`, `*State`) are `Option`s.  The Google
Translate client is a value with an explicit state, so that two calls with the
same text may answer differently; a call that returns `err != nil` answers
`none`, a call that returns `err == nil` answers `some t`, where `t` is
`translations[0].Text`.  The texts handed to `Translate` are recorded in a log.
-/

namespace XliffMerge

/-! ## Data model (`main.go`, lines 154-190) -/

structure Source where
  Text : String
  deriving DecidableEq, Repr

structure Target where
  Text : String
  deriving DecidableEq, Repr

structure State where
  Text : String
  deriving DecidableEq, Repr

structure Segment where
  Source : Source
  Target : Option Target
  State : Option State
  deriving DecidableEq, Repr

structure Unit where
  ID : String
  Segment : Segment
  deriving DecidableEq, Repr

structure File where
  Original : String
  ID : String
  Units : List Unit
  deriving DecidableEq, Repr

structure Xliff where
  Version : String
  Xmlns : String
  SrcLang : String
  TrgLang : String
  File : File
  deriving DecidableEq, Repr

/-! ## Library functions used by `main` -/

/-- Whether `p` is a prefix of `s`, on character lists. -/
def hasPrefixChars : List Char → List Char → Bool
  | _, [] => true
  | [], _ :: _ => false
  | c :: s, d :: p => c == d && hasPrefixChars s p

/-- Whether `sub` occurs in `s`, on character lists. -/
def containsChars : List Char → List Char → Bool
  | [], sub => sub.isEmpty
  | c :: s, sub => hasPrefixChars (c :: s) sub || containsChars s sub

/-- Go `strings.Contains(s, substr)`. -/
def Contains (s substr : String) : Bool :=
  containsChars s.toList substr.toList

/-- The one-character string of the opening brace, the argument of
`strings.Contains` on line 97. -/
def brace : String := String.singleton (Char.ofNat 123)

/-- The translation client of line 99.  `Translate` is given the client's
current state, the one text of the `inputs` slice and the target language tag.
The library returns one translation per input text; the answer here is the text
of that translation, `translations[0].Text`, when `err == nil`, and `none` when
`err != nil`, together with the client's next state. -/
structure Client (σ τ : Type) where
  Translate : σ → String → τ → Option String × σ

/-! ## The merge (`main`, lines 84-117) -/

/-- The map `m` of line 65, as its lookup function. -/
abbrev UnitMap := String → Option Unit

/-- The empty map, `make(map[string]*Unit)`. -/
def emptyMap : UnitMap := fun _ => none

/-- The assignment `m[k] = v`. -/
def mapSet (m : UnitMap) (k : String) (v : Unit) : UnitMap :=
  fun k' => if k' = k then some v else m k'

/-- Lines 85-87: `for _, unit := range trg.File.Units { m[unit.ID] = unit }`. -/
def buildMap (units : List Unit) : UnitMap :=
  units.foldl (fun m unit => mapSet m unit.ID unit) emptyMap

/-- The variables of one iteration of the loop of line 90 when line 105 is
reached, with the client's state and the texts that were passed to
`Translate`. -/
structure Pick (σ : Type) where
  target : String
  state : Option State
  st : σ
  calls : List String

/-- Lines 97-103: the `else` branch, taken when there is no old translation. -/
def autoTranslate {σ τ : Type} (googleTranslate : Bool) (client : Client σ τ)
    (targetLang : τ) (unit : Unit) (s : σ) : Pick σ :=
  if googleTranslate && !Contains unit.Segment.Source.Text brace then
    match client.Translate s unit.Segment.Source.Text targetLang with
    | (some text, s') =>
        { target := text, state := some ⟨"not-checked"⟩, st := s',
          calls := [unit.Segment.Source.Text] }
    | (none, s') =>
        { target := "", state := none, st := s', calls := [unit.Segment.Source.Text] }
  else
    { target := "", state := none, st := s, calls := [] }

/-- Lines 91-104: `target` and `state` start as `""` and `nil`; an entry of the
map with a non-nil `Target` sets both, otherwise the `else` branch runs. -/
def pick {σ τ : Type} (googleTranslate : Bool) (client : Client σ τ)
    (targetLang : τ) (m : UnitMap) (unit : Unit) (s : σ) : Pick σ :=
  match m unit.ID with
  | some val =>
      match val.Segment.Target with
      | some t => { target := t.Text, state := val.Segment.State, st := s, calls := [] }
      | none => autoTranslate googleTranslate client targetLang unit s
  | none => autoTranslate googleTranslate client targetLang unit s

/-- Lines 105-116: the empty-target check and the unit that is appended. -/
def buildUnit (unit : Unit) (target : String) (state : Option State) : Unit :=
  if target = "" then
    { ID := unit.ID,
      Segment := { Source := unit.Segment.Source,
                   Target := some ⟨unit.Segment.Source.Text⟩,
                   State := some ⟨"initial"⟩ } }
  else
    { ID := unit.ID,
      Segment := { Source := unit.Segment.Source,
                   Target := some ⟨target⟩,
                   State := state } }

/-- One iteration of the loop of line 90 (lines 91-116): the appended unit. -/
def mergeUnit {σ τ : Type} (googleTranslate : Bool) (client : Client σ τ)
    (targetLang : τ) (m : UnitMap) (unit : Unit) (s : σ) : Unit :=
  let p := pick googleTranslate client targetLang m unit s
  buildUnit unit p.target p.state

/-- The state carried around the loop of line 90: `trg.File.Units`, the
client's state and the log of the texts passed to `Translate`. -/
structure LoopState (σ : Type) where
  units : List Unit
  st : σ
  calls : List String

/-- One iteration of the loop of line 90, on the loop state. -/
def loopStep {σ τ : Type} (googleTranslate : Bool) (client : Client σ τ)
    (targetLang : τ) (m : UnitMap) (acc : LoopState σ) (unit : Unit) : LoopState σ :=
  let p := pick googleTranslate client targetLang m unit acc.st
  { units := acc.units ++ [buildUnit unit p.target p.state],
    st := p.st,
    calls := acc.calls ++ p.calls }

/-- Lines 89-117: `trg.File.Units = nil`, then the loop over
`english.File.Units`. -/
def mergeLoop {σ τ : Type} (googleTranslate : Bool) (client : Client σ τ)
    (targetLang : τ) (m : UnitMap) (units : List Unit) (s : σ) : LoopState σ :=
  units.foldl (loopStep googleTranslate client targetLang m)
    { units := [], st := s, calls := [] }

/-- What one merge leaves behind: the catalog `trg` after line 117, the
client's state and the log of the texts passed to `Translate`. -/
structure Merged (σ : Type) where
  trg : Xliff
  st : σ
  calls : List String

/-- Lines 84-117: the map of the old units, the two assignments to `trg`, and
the loop that refills `trg.File.Units`. -/
def merge {σ τ : Type} (googleTranslate : Bool) (client : Client σ τ)
    (targetLang : τ) (english trg : Xliff) (lang : String) (s : σ) : Merged σ :=
  let m := buildMap trg.File.Units
  let r := mergeLoop googleTranslate client targetLang m english.File.Units s
  { trg := { trg with TrgLang := lang, File := { trg.File with Units := r.units } },
    st := r.st,
    calls := r.calls }

/-! ## The body of the locale loop (`main`, lines 57-123) -/

/-- Lines 58-62: the English catalog as the loop uses it, from the catalog
that `readXML("en")` returned. -/
def loadEnglish (read : Except String Xliff) : Except String Xliff :=
  match read with
  | .error e => .error e
  | .ok english => .ok { english with TrgLang := "en" }

/-- How one iteration of the locale loop ends: `log.Fatal`, or a call of
`saveXML(lang, content)`, with the client's state and call log. -/
inductive Iteration (σ : Type) where
  | fatal : String → Iteration σ
  | saved : String → Xliff → σ → List String → Iteration σ
  deriving DecidableEq

/-- Lines 65-122, one iteration of the locale loop.  `read` is what
`readXML(lang)` returned and `parse` is `language.Parse`. -/
def loopBody {σ τ : Type} (googleTranslate : Bool) (client : Client σ τ)
    (parse : String → Except String τ) (english : Xliff) (lang : String)
    (read : Except String Xliff) (s : σ) : Iteration σ :=
  match read with
  | .error e => .fatal e
  | .ok trg =>
      if lang = "en" then
        .saved lang english s []
      else
        match parse lang with
        | .error e => .fatal e
        | .ok targetLang =>
            let r := merge googleTranslate client targetLang english trg lang s
            .saved lang r.trg r.st r.calls

/-- Lines 57-123 for one locale of the loop: the English catalog is loaded
(`readEnglish` is what `readXML("en")` returned), then the iteration for `lang`
runs. -/
def processLocale {σ τ : Type} (googleTranslate : Bool) (client : Client σ τ)
    (parse : String → Except String τ) (readEnglish : Except String Xliff) (lang : String)
    (read : Except String Xliff) (s : σ) : Iteration σ :=
  match loadEnglish readEnglish with
  | .error e => .fatal e
  | .ok english => loopBody googleTranslate client parse english lang read s

/-! ## Locale discovery and `readXML` (`main`, lines 50-55 and 126-140)

File names are Go strings, that is byte sequences: the slice `name[9:11]` counts
bytes. -/

/-- A Go string as the list of its bytes. -/
abbrev Bytes := List Nat

/-- The bytes of a string constant whose characters are ASCII, one byte each. -/
def ascii (s : String) : Bytes := s.toList.map Char.toNat

/-- Go `strings.HasSuffix(s, suffix)`. -/
def HasSuffix (s suffix : Bytes) : Bool :=
  decide (suffix.length ≤ s.length) && s.drop (s.length - suffix.length) == suffix

/-- The slice expression `s[lo:hi]`; `none` is the run-time panic for bounds
out of range. -/
def slice (s : Bytes) (lo hi : Nat) : Option Bytes :=
  if lo ≤ hi ∧ hi ≤ s.length then some ((s.drop lo).take (hi - lo)) else none

/-- Lines 50-55: the loop over the directory entries, from their names;
`none` when a slice expression panics. -/
def discoverLocales : List Bytes → List Bytes → Option (List Bytes)
  | locales, [] => some locales
  | locales, name :: files =>
      if HasSuffix name (ascii ".xlf") then
        match slice name 9 11 with
        | some lang => discoverLocales (locales ++ [lang]) files
        | none => none
      else
        discoverLocales locales files

/-- The file name of lines 127 and 147:
`fmt.Sprintf("%s/messages.%s.xlf", *path, lang)`. -/
def fileName (path lang : Bytes) : Bytes :=
  path ++ ascii "/messages." ++ lang ++ ascii ".xlf"

/-- The zero value of `var q Xliff` (line 137). -/
def zeroXliff : Xliff :=
  { Version := "", Xmlns := "", SrcLang := "", TrgLang := "",
    File := { Original := "", ID := "", Units := [] } }

/-- The three library calls of `readXML`: `os.Open`, `ioutil.ReadAll`, and
`xml.Unmarshal(b, &q)`, which answers the value left in `q` and its error
(`none` for `nil`). -/
structure Reader (φ β : Type) where
  Open : Bytes → Except String φ
  ReadAll : φ → Except String β
  Unmarshal : β → Xliff → Xliff × Option String

/-- Lines 126-140, `readXML`: the errors of `os.Open` and `ioutil.ReadAll` are
returned; the result of `xml.Unmarshal` is not looked at, and `&q, nil` is
returned. -/
def readXML {φ β : Type} (os : Reader φ β) (path lang : Bytes) : Except String Xliff :=
  match os.Open (fileName path lang) with
  | .error err => .error err
  | .ok xmlFile =>
      match os.ReadAll xmlFile with
      | .error err => .error err
      | .ok b =>
          let q := zeroXliff
          .ok (os.Unmarshal b q).1

/-- Lines 57-123 for one locale, with the two calls of `readXML` made on the
reader `os`.  The locale code `lang` is taken to be of ASCII characters, as the
two-byte codes of the discovery are when they are text. -/
def mainLocale {σ τ φ β : Type} (googleTranslate : Bool) (client : Client σ τ)
    (parse : String → Except String τ) (os : Reader φ β) (path : Bytes) (lang : String)
    (s : σ) : Iteration σ :=
  processLocale googleTranslate client parse (readXML os path (ascii "en")) lang
    (readXML os path (ascii lang)) s

/-! ## The merge as a sequence of assignments (`main`, lines 84-117) -/

/-- The variables that lines 84-117 read and write: the catalogs that `english`
and `trg` point to, the map `m`, the client's state and the call log. -/
structure Store (σ : Type) where
  english : Xliff
  trg : Xliff
  m : UnitMap
  st : σ
  calls : List String

/-- Line 86: `m[unit.ID] = unit`. -/
def storeInsert {σ : Type} (S : Store σ) (unit : Unit) : Store σ :=
  { S with m := mapSet S.m unit.ID unit }

/-- Lines 91-116: one iteration of the loop of line 90, ending with
`trg.File.Units = append(trg.File.Units, ...)`. -/
def storeAppend {σ τ : Type} (googleTranslate : Bool) (client : Client σ τ)
    (targetLang : τ) (S : Store σ) (unit : Unit) : Store σ :=
  let p := pick googleTranslate client targetLang S.m unit S.st
  { S with
    trg := { S.trg with
      File := { S.trg.File with
        Units := S.trg.File.Units ++ [buildUnit unit p.target p.state] } },
    st := p.st,
    calls := S.calls ++ p.calls }

/-- Lines 84-117, statement by statement, from the catalogs that `english` and
`trg` point to when line 84 is reached: the store when line 118 is reached. -/
def mergeStore {σ τ : Type} (googleTranslate : Bool) (client : Client σ τ)
    (targetLang : τ) (english trg : Xliff) (lang : String) (s : σ) : Store σ :=
  let S0 : Store σ := { english := english, trg := trg, m := emptyMap, st := s, calls := [] }
  let S1 := S0.trg.File.Units.foldl storeInsert S0
  let S2 := { S1 with trg := { S1.trg with TrgLang := lang } }
  let S3 := { S2 with trg := { S2.trg with File := { S2.trg.File with Units := [] } } }
  S3.english.File.Units.foldl (storeAppend googleTranslate client targetLang) S3

/-! ## Reading the previous target: the entry of an identifier -/

/-- No unit of `prev` carries the identifier `id`. -/
def Absent (prev : List Unit) (id : String) : Prop :=
  ∀ v ∈ prev, v.ID ≠ id

/-- The unit `v` is the last unit of `prev` that carries the identifier `id`. -/
def IsEntry (prev : List Unit) (id : String) (v : Unit) : Prop :=
  ∃ pre post, prev = pre ++ v :: post ∧ v.ID = id ∧ ∀ w ∈ post, w.ID ≠ id

/-- The identifier `id` has no old translation in `prev`: no unit carries it,
or the last unit that carries it has no target element. -/
def NoPrior (prev : List Unit) (id : String) : Prop :=
  Absent prev id ∨ ∃ v, IsEntry prev id v ∧ v.Segment.Target = none

/-- The client's state when the loop of line 90 reaches the unit of index `i`. -/
def clientStateAt {σ τ : Type} (googleTranslate : Bool) (client : Client σ τ)
    (targetLang : τ) (english trg : Xliff) (i : Nat) (s : σ) : σ :=
  (mergeLoop googleTranslate client targetLang (buildMap trg.File.Units)
    (english.File.Units.take i) s).st

/-- The texts passed to `Translate` in the iteration of the loop of line 90 for
the unit of index `i`. -/
def callsAt {σ τ : Type} (googleTranslate : Bool) (client : Client σ τ)
    (targetLang : τ) (english trg : Xliff) (i : Nat) (s : σ) : List String :=
  match english.File.Units[i]? with
  | none => []
  | some unit =>
      (pick googleTranslate client targetLang (buildMap trg.File.Units) unit
        (clientStateAt googleTranslate client targetLang english trg i s)).calls

/-! ## Example catalogs and clients -/

/-- A unit from its identifier, source text, and optional target and state. -/
def mkUnit (id src : String) (target state : Option String) : Unit :=
  { ID := id,
    Segment := { Source := ⟨src⟩, Target := target.map Target.mk,
                 State := state.map State.mk } }

/-- A catalog from its target-language tag, file identifier and units. -/
def mkXliff (trgLang fileID : String) (units : List Unit) : Xliff :=
  { Version := "2.0", Xmlns := "urn:oasis:names:tc:xliff:document:2.0", SrcLang := "en",
    TrgLang := trgLang, File := { Original := "ng.template", ID := fileID, Units := units } }

/-- A client whose every call returns an error; its state counts the calls. -/
def failingClient : Client Nat String := ⟨fun s _ _ => (none, s + 1)⟩

/-- A client whose every call succeeds with the text `t`; its state counts the
calls. -/
def constClient (t : String) : Client Nat String := ⟨fun s _ _ => (some t, s + 1)⟩

/-- A stand-in for `language.Parse` that accepts every locale code. -/
def parseAny : String → Except String String := fun lang => .ok lang

/-- The English catalog of the two-unit scenario: `a` and `b`, the second with
an interpolation placeholder. -/
def enHelloBye : Xliff :=
  mkXliff "" "ngi18n"
    [mkUnit "a" "Hello" none none, mkUnit "b" "Bye \x7bname\x7d" none none]

/-- The previous French catalog of the scenario: only `a`, translated and
final. -/
def frBonjour : Xliff :=
  mkXliff "fr" "ngi18n" [mkUnit "a" "Hello" (some "Bonjour") (some "final")]

/-- An English catalog with the one unit `a`. -/
def enHello : Xliff := mkXliff "" "ngi18n" [mkUnit "a" "Hello" none none]

/-- A previous French catalog whose unit `a` has a target element with empty
text and the state `final`. -/
def frEmptyTarget : Xliff :=
  mkXliff "fr" "ngi18n" [mkUnit "a" "Hello" (some "") (some "final")]

/-- A previous French catalog whose unit `a` has a source only. -/
def frNoTarget : Xliff := mkXliff "fr" "ngi18n" [mkUnit "a" "Hello" none none]

/-- A previous French catalog whose unit `a` is translated and has no state
element. -/
def frNoState : Xliff := mkXliff "fr" "ngi18n" [mkUnit "a" "Hello" (some "Bonjour") none]

/-- A previous French catalog with another file identifier than the English
one, and a unit `z` that the English catalog does not have. -/
def frOtherFile : Xliff :=
  mkXliff "fr" "legacy" [mkUnit "z" "Old" (some "Vieux") (some "final")]

/-- An English catalog with the one unit `c`. -/
def enSubmit : Xliff := mkXliff "" "ngi18n" [mkUnit "c" "Submit" none none]

/-- An empty previous French catalog. -/
def frNone : Xliff := mkXliff "fr" "ngi18n" []

/-- An English catalog whose one unit has an empty source. -/
def enBlank : Xliff := mkXliff "" "ngi18n" [mkUnit "e" "" none none]

/-- A previous French catalog in which the identifier `a` occurs twice: first
translated and final, then without target element. -/
def frTwice : Xliff :=
  mkXliff "fr" "ngi18n"
    [mkUnit "a" "Hello" (some "Salut") (some "final"), mkUnit "a" "Hello" none none]

/-- A previous French catalog without target-language tag, whose unit `a` has
a source only. -/
def frUntagged : Xliff := mkXliff "" "ngi18n" [mkUnit "a" "Hello" none none]

/-- A reader over a directory `locale` with two files: `messages.en.xlf` holds
the document of `enHello`, and `messages.fr.xlf` holds the text `not xml`.  Its
`Unmarshal` stands in for the XML decoder: it decodes the first document and
answers an error, leaving `q` as it was, on any other content. -/
def brokenReader : Reader Bytes Bytes :=
  { Open := fun name =>
      if name = ascii "locale/messages.en.xlf" ∨ name = ascii "locale/messages.fr.xlf" then
        .ok name
      else
        .error "no such file or directory",
    ReadAll := fun xmlFile =>
      if xmlFile = ascii "locale/messages.en.xlf" then .ok (ascii "<xliff>a: Hello</xliff>")
      else .ok (ascii "not xml"),
    Unmarshal := fun b q =>
      if b = ascii "<xliff>a: Hello</xliff>" then (enHello, none) else (q, some "EOF") }

/-! ## Lemmas on the map of old units -/

theorem buildMap_nil (k : String) : buildMap [] k = none := rfl

theorem buildMap_snoc (l : List Unit) (a : Unit) :
    buildMap (l ++ [a]) = mapSet (buildMap l) a.ID a := by
  simp [buildMap, List.foldl_append]

theorem foldl_mapSet_of_absent (l : List Unit) (m : UnitMap) (k : String)
    (h : ∀ w ∈ l, w.ID ≠ k) :
    l.foldl (fun m unit => mapSet m unit.ID unit) m k = m k := by
  induction l generalizing m with
  | nil => rfl
  | cons a l ih =>
      have ha : a.ID ≠ k := h a (List.mem_cons_self a l)
      have hl : ∀ w ∈ l, w.ID ≠ k := fun w hw => h w (List.mem_cons_of_mem a hw)
      rw [List.foldl_cons, ih _ hl]
      simp [mapSet, Ne.symm ha]

theorem buildMap_of_absent (prev : List Unit) (id : String) (h : Absent prev id) :
    buildMap prev id = none :=
  foldl_mapSet_of_absent prev emptyMap id h

theorem buildMap_of_isEntry (prev : List Unit) (id : String) (v : Unit)
    (h : IsEntry prev id v) : buildMap prev id = some v := by
  obtain ⟨pre, post, rfl, hid, hpost⟩ := h
  unfold buildMap
  rw [List.foldl_append, List.foldl_cons, foldl_mapSet_of_absent post _ id hpost]
  simp [mapSet, hid]

theorem isEntry_of_buildMap (prev : List Unit) (id : String) (v : Unit)
    (h : buildMap prev id = some v) : IsEntry prev id v := by
  induction prev using List.reverseRecOn with
  | nil => simp [buildMap_nil] at h
  | append_singleton l a ih =>
      rw [buildMap_snoc] at h
      unfold mapSet at h
      split at h
      · rename_i hid
        simp only [Option.some.injEq] at h
        subst h
        exact ⟨l, [], rfl, hid.symm, by simp⟩
      · rename_i hid
        obtain ⟨pre, post, hl, hv, hpost⟩ := ih h
        refine ⟨pre, post ++ [a], by simp [hl], hv, ?_⟩
        intro w hw
        rcases List.mem_append.1 hw with hw | hw
        · exact hpost w hw
        · have hwa : w = a := by simpa using hw
          rw [hwa]
          exact fun hc => hid hc.symm

theorem absent_of_buildMap (prev : List Unit) (id : String)
    (h : buildMap prev id = none) : Absent prev id := by
  induction prev using List.reverseRecOn with
  | nil => intro v hv; simp at hv
  | append_singleton l a ih =>
      rw [buildMap_snoc] at h
      unfold mapSet at h
      split at h
      · simp at h
      · rename_i hid
        intro w hw
        rcases List.mem_append.1 hw with hw | hw
        · exact ih h w hw
        · have hwa : w = a := by simpa using hw
          rw [hwa]
          exact fun hc => hid hc.symm

theorem buildMap_of_mem_nodup (l : List Unit) (w : Unit) (hw : w ∈ l)
    (hnd : (l.map Unit.ID).Nodup) : buildMap l w.ID = some w := by
  induction l using List.reverseRecOn with
  | nil => simp at hw
  | append_singleton l a ih =>
      rw [buildMap_snoc]
      rw [List.map_append, List.nodup_append] at hnd
      obtain ⟨hl, -, hdisj⟩ := hnd
      by_cases hwa : w.ID = a.ID
      · rcases List.mem_append.1 hw with hmem | hmem
        · exact absurd (List.mem_map_of_mem Unit.ID hmem)
            (fun hin => hdisj hin (by simp [hwa]))
        · have : w = a := by simpa using hmem
          subst this
          simp [mapSet]
      · rcases List.mem_append.1 hw with hmem | hmem
        · simp [mapSet, hwa, ih hmem hl]
        · have : w = a := by simpa using hmem
          exact absurd (by rw [this]) hwa

/-! ## Lemmas on the loop over the English units -/

section Loop

variable {σ τ : Type} (googleTranslate : Bool) (client : Client σ τ) (targetLang : τ)
  (m : UnitMap)

@[simp] theorem buildUnit_ID (unit : Unit) (target : String) (state : Option State) :
    (buildUnit unit target state).ID = unit.ID := by
  unfold buildUnit; split <;> rfl

@[simp] theorem buildUnit_Source (unit : Unit) (target : String) (state : Option State) :
    (buildUnit unit target state).Segment.Source = unit.Segment.Source := by
  unfold buildUnit; split <;> rfl

theorem foldl_loopStep (units : List Unit) (acc : LoopState σ) :
    units.foldl (loopStep googleTranslate client targetLang m) acc =
      { units := acc.units ++ (mergeLoop googleTranslate client targetLang m units acc.st).units,
        st := (mergeLoop googleTranslate client targetLang m units acc.st).st,
        calls := acc.calls ++
          (mergeLoop googleTranslate client targetLang m units acc.st).calls } := by
  induction units generalizing acc with
  | nil => simp [mergeLoop]
  | cons u us ih =>
      simp only [mergeLoop, List.foldl_cons]
      rw [ih, ih (loopStep googleTranslate client targetLang m _ u)]
      simp [loopStep, List.append_assoc]

theorem mergeLoop_nil (s : σ) :
    mergeLoop googleTranslate client targetLang m [] s = { units := [], st := s, calls := [] } :=
  rfl

theorem mergeLoop_cons (u : Unit) (us : List Unit) (s : σ) :
    mergeLoop googleTranslate client targetLang m (u :: us) s =
      { units := mergeUnit googleTranslate client targetLang m u s ::
          (mergeLoop googleTranslate client targetLang m us
            (pick googleTranslate client targetLang m u s).st).units,
        st := (mergeLoop googleTranslate client targetLang m us
            (pick googleTranslate client targetLang m u s).st).st,
        calls := (pick googleTranslate client targetLang m u s).calls ++
          (mergeLoop googleTranslate client targetLang m us
            (pick googleTranslate client targetLang m u s).st).calls } := by
  conv_lhs => unfold mergeLoop
  rw [List.foldl_cons, foldl_loopStep]
  simp [loopStep, mergeUnit]

theorem mergeLoop_units_getElem? (units : List Unit) (s : σ) (i : Nat) :
    (mergeLoop googleTranslate client targetLang m units s).units[i]? =
      units[i]?.map (fun u => mergeUnit googleTranslate client targetLang m u
        (mergeLoop googleTranslate client targetLang m (units.take i) s).st) := by
  induction units generalizing s i with
  | nil => simp [mergeLoop_nil]
  | cons u us ih =>
      rw [mergeLoop_cons]
      cases i with
      | zero => simp [mergeLoop_nil]
      | succ i => simp [ih, mergeLoop_cons]

theorem mergeLoop_units_length (units : List Unit) (s : σ) :
    (mergeLoop googleTranslate client targetLang m units s).units.length = units.length := by
  induction units generalizing s with
  | nil => rfl
  | cons u us ih => rw [mergeLoop_cons]; simp [ih]

theorem mergeLoop_units_map_ID (units : List Unit) (s : σ) :
    (mergeLoop googleTranslate client targetLang m units s).units.map Unit.ID =
      units.map Unit.ID := by
  induction units generalizing s with
  | nil => rfl
  | cons u us ih => rw [mergeLoop_cons]; simp [ih, mergeUnit]

end Loop

/-- The unit of index `i` of the merged catalog is the unit that one iteration
builds from the English unit of index `i`, in the client state reached then. -/
theorem merge_units_getElem? {σ τ : Type} (googleTranslate : Bool) (client : Client σ τ)
    (targetLang : τ) (english trg : Xliff) (lang : String) (s : σ) (i : Nat) :
    (merge googleTranslate client targetLang english trg lang s).trg.File.Units[i]? =
      english.File.Units[i]?.map (fun u =>
        mergeUnit googleTranslate client targetLang (buildMap trg.File.Units) u
          (clientStateAt googleTranslate client targetLang english trg i s)) := by
  simp only [merge, clientStateAt]
  exact mergeLoop_units_getElem? _ _ _ _ _ _ _

/-! ## C1: the merged units follow the English units -/

/-- C1. For every English catalog, previous target catalog and translation
client (enabled or not, whatever it answers), the merged unit list has the
length of the English unit list, its unit of index `i` carries the identifier
and the source of the English unit of index `i`, the list of merged identifiers
is the list of English identifiers, and so an identifier is in the output
exactly when it is in the English catalog. -/
theorem merged_units_follow_english {σ τ : Type} (googleTranslate : Bool)
    (client : Client σ τ) (targetLang : τ) (english trg : Xliff) (lang : String) (s : σ) :
    (merge googleTranslate client targetLang english trg lang s).trg.File.Units.length
        = english.File.Units.length
    ∧ (∀ i : Nat,
        (merge googleTranslate client targetLang english trg lang s).trg.File.Units[i]?.map
            (fun u => (u.ID, u.Segment.Source))
          = english.File.Units[i]?.map (fun u => (u.ID, u.Segment.Source)))
    ∧ (merge googleTranslate client targetLang english trg lang s).trg.File.Units.map Unit.ID
        = english.File.Units.map Unit.ID
    ∧ (∀ id : String,
        id ∈ (merge googleTranslate client targetLang english trg lang s).trg.File.Units.map
            Unit.ID
          ↔ id ∈ english.File.Units.map Unit.ID) := by
  have hmap := mergeLoop_units_map_ID googleTranslate client targetLang
    (buildMap trg.File.Units) english.File.Units s
  refine ⟨mergeLoop_units_length _ _ _ _ _ _, ?_, hmap, ?_⟩
  · intro i
    rw [merge_units_getElem?]
    cases english.File.Units[i]? with
    | none => rfl
    | some u => simp [mergeUnit]
  · intro id
    show id ∈ (mergeLoop googleTranslate client targetLang (buildMap trg.File.Units)
      english.File.Units s).units.map Unit.ID ↔ _
    rw [hmap]

/-! ## Lemmas on one iteration -/

section Iteration

variable {σ τ : Type} (googleTranslate : Bool) (client : Client σ τ) (targetLang : τ)

theorem pick_of_noPrior (prev : List Unit) (unit : Unit) (s : σ)
    (h : NoPrior prev unit.ID) :
    pick googleTranslate client targetLang (buildMap prev) unit s =
      autoTranslate googleTranslate client targetLang unit s := by
  unfold pick
  rcases h with habs | ⟨v, hv, hnone⟩
  · rw [buildMap_of_absent prev unit.ID habs]
  · rw [buildMap_of_isEntry prev unit.ID v hv]
    simp only [hnone]

theorem pick_of_isEntry (prev : List Unit) (unit v : Unit) (t : Target) (s : σ)
    (hv : IsEntry prev unit.ID v) (ht : v.Segment.Target = some t) :
    pick googleTranslate client targetLang (buildMap prev) unit s =
      { target := t.Text, state := v.Segment.State, st := s, calls := [] } := by
  unfold pick
  rw [buildMap_of_isEntry prev unit.ID v hv]
  simp only [ht]

theorem autoTranslate_of_no_answer (unit : Unit) (s : σ)
    (h : googleTranslate = false ∨
      (client.Translate s unit.Segment.Source.Text targetLang).1 = none) :
    (autoTranslate googleTranslate client targetLang unit s).target = "" := by
  unfold autoTranslate
  split
  · rename_i hcond
    rcases h with hoff | hnone
    · simp [hoff] at hcond
    · split
      · rename_i text s' heq
        rw [heq] at hnone
        exact absurd hnone (by simp)
      · rfl
  · rfl

theorem autoTranslate_of_answer (unit : Unit) (s : σ) (t : String)
    (hon : googleTranslate = true) (hbrace : Contains unit.Segment.Source.Text brace = false)
    (h : (client.Translate s unit.Segment.Source.Text targetLang).1 = some t) :
    (autoTranslate googleTranslate client targetLang unit s).target = t ∧
      (autoTranslate googleTranslate client targetLang unit s).state
        = some ⟨"not-checked"⟩ := by
  unfold autoTranslate
  simp only [hon, hbrace, Bool.not_false, Bool.and_self, if_true]
  split
  · rename_i text s' heq
    rw [heq] at h
    simp at h
    simp [h]
  · rename_i s' heq
    rw [heq] at h
    simp at h

theorem buildUnit_empty (unit : Unit) (state : Option State) :
    buildUnit unit "" state =
      { ID := unit.ID,
        Segment := { Source := unit.Segment.Source,
                     Target := some ⟨unit.Segment.Source.Text⟩,
                     State := some ⟨"initial"⟩ } } := by
  simp [buildUnit]

theorem buildUnit_nonempty (unit : Unit) (target : String) (state : Option State)
    (h : target ≠ "") :
    buildUnit unit target state =
      { ID := unit.ID,
        Segment := { Source := unit.Segment.Source, Target := some ⟨target⟩,
                     State := state } } := by
  simp [buildUnit, h]

end Iteration

/-! ## C2: retention -/

/-- C2, as stated, fails: the previous unit `a` has a target element (with
empty text) and the state `final`, and the merged unit `a` has the English
source as target text and the state `initial`. -/
theorem retention_fails_on_empty_target :
    frEmptyTarget.File.Units = [mkUnit "a" "Hello" (some "") (some "final")]
    ∧ (merge false failingClient "fr" enHello frEmptyTarget "fr" 0).trg.File.Units
        = [mkUnit "a" "Hello" (some "Hello") (some "initial")]
    ∧ (mkUnit "a" "Hello" (some "Hello") (some "initial")).Segment.Target
        ≠ (mkUnit "a" "Hello" (some "") (some "final")).Segment.Target
    ∧ (mkUnit "a" "Hello" (some "Hello") (some "initial")).Segment.State
        ≠ (mkUnit "a" "Hello" (some "") (some "final")).Segment.State := by
  decide

/-- C2, amended. When the last unit of the previous target that carries the
identifier of the English unit of index `i` has a target element with non-empty
text, the merged unit of index `i` has that target and that unit's state, with
the English identifier and source, for every translation configuration. -/
theorem retention_of_nonempty_target {σ τ : Type} (googleTranslate : Bool)
    (client : Client σ τ) (targetLang : τ) (english trg : Xliff) (lang : String) (s : σ)
    (i : Nat) (u v : Unit) (t : Target)
    (hu : english.File.Units[i]? = some u)
    (hv : IsEntry trg.File.Units u.ID v)
    (ht : v.Segment.Target = some t)
    (hne : t.Text ≠ "") :
    (merge googleTranslate client targetLang english trg lang s).trg.File.Units[i]? =
      some { ID := u.ID,
             Segment := { Source := u.Segment.Source, Target := some t,
                          State := v.Segment.State } } := by
  rw [merge_units_getElem?, hu]
  simp only [Option.map_some', mergeUnit]
  rw [pick_of_isEntry googleTranslate client targetLang trg.File.Units u v t _ hv ht]
  rw [buildUnit_nonempty u t.Text v.Segment.State hne]

/-- The scenario of the spec: `a` keeps `Bonjour` and `final`, with the
translation switched on. -/
theorem retention_of_nonempty_target_witness :
    (merge true (constClient "Salut") "fr" enHelloBye frBonjour "fr" 0).trg.File.Units[0]? =
      some (mkUnit "a" "Hello" (some "Bonjour") (some "final")) :=
  retention_of_nonempty_target true (constClient "Salut") "fr" enHelloBye frBonjour "fr" 0 0
    (mkUnit "a" "Hello" none none) (mkUnit "a" "Hello" (some "Bonjour") (some "final"))
    ⟨"Bonjour"⟩ rfl ⟨[], [], rfl, rfl, by simp⟩ rfl (by decide)

/-! ## C3: placeholder fallback -/

/-- C3. When the identifier of the English unit of index `i` has no old
translation (no previous unit carries it, or the last one that does has no
target element), and the translation is switched off or the call made for this
unit returns an error, the merged unit of index `i` has the English source text
as target and the state `initial`. -/
theorem placeholder_fallback {σ τ : Type} (googleTranslate : Bool)
    (client : Client σ τ) (targetLang : τ) (english trg : Xliff) (lang : String) (s : σ)
    (i : Nat) (u : Unit)
    (hu : english.File.Units[i]? = some u)
    (hprior : NoPrior trg.File.Units u.ID)
    (hfail : googleTranslate = false ∨
      (client.Translate (clientStateAt googleTranslate client targetLang english trg i s)
        u.Segment.Source.Text targetLang).1 = none) :
    (merge googleTranslate client targetLang english trg lang s).trg.File.Units[i]? =
      some { ID := u.ID,
             Segment := { Source := u.Segment.Source,
                          Target := some ⟨u.Segment.Source.Text⟩,
                          State := some ⟨"initial"⟩ } } := by
  rw [merge_units_getElem?, hu]
  simp only [Option.map_some', mergeUnit]
  rw [pick_of_noPrior googleTranslate client targetLang trg.File.Units u _ hprior]
  rw [autoTranslate_of_no_answer googleTranslate client targetLang u _ hfail]
  rw [buildUnit_empty]

/-- The unit `a` has a previous entry without target element and the client
fails: the merged unit is the placeholder. -/
theorem placeholder_fallback_witness :
    (merge true failingClient "fr" enHello frNoTarget "fr" 0).trg.File.Units[0]? =
      some (mkUnit "a" "Hello" (some "Hello") (some "initial")) :=
  placeholder_fallback true failingClient "fr" enHello frNoTarget "fr" 0 0
    (mkUnit "a" "Hello" none none) rfl
    (Or.inr ⟨mkUnit "a" "Hello" none none, ⟨[], [], rfl, rfl, by simp⟩, rfl⟩)
    (Or.inr rfl)

/-! ## C4: idempotence -/

/-- The unit that an iteration appends always has a target element, and it is
what an iteration builds again from that target text and that state. -/
theorem buildUnit_again (unit : Unit) (target : String) (state : Option State) :
    ∃ x : Target, (buildUnit unit target state).Segment.Target = some x ∧
      buildUnit unit x.Text (buildUnit unit target state).Segment.State
        = buildUnit unit target state := by
  by_cases h : target = ""
  · subst h
    refine ⟨⟨unit.Segment.Source.Text⟩, by simp [buildUnit], ?_⟩
    by_cases hs : unit.Segment.Source.Text = "" <;> simp [buildUnit, hs]
  · exact ⟨⟨target⟩, by simp [buildUnit, h], by simp [buildUnit, h]⟩

theorem pick_of_map_target {σ τ : Type} (googleTranslate : Bool) (client : Client σ τ)
    (targetLang : τ) (m : UnitMap) (unit w : Unit) (x : Target) (s : σ)
    (hm : m unit.ID = some w) (hx : w.Segment.Target = some x) :
    pick googleTranslate client targetLang m unit s =
      { target := x.Text, state := w.Segment.State, st := s, calls := [] } := by
  unfold pick
  rw [hm]
  simp only [hx]

/-- A loop in which every unit finds an old translation calls no translation
and leaves the client as it was. -/
theorem mergeLoop_all_retained {σ τ : Type} (googleTranslate : Bool) (client : Client σ τ)
    (targetLang : τ) (m : UnitMap) (units : List Unit) (s : σ)
    (h : ∀ u ∈ units, ∃ w x, m u.ID = some w ∧ w.Segment.Target = some x) :
    mergeLoop googleTranslate client targetLang m units s =
      { units := units.map (fun u => mergeUnit googleTranslate client targetLang m u s),
        st := s, calls := [] } := by
  induction units with
  | nil => rfl
  | cons u us ih =>
      obtain ⟨w, x, hm, hx⟩ := h u (List.mem_cons_self u us)
      have hp := pick_of_map_target googleTranslate client targetLang m u w x s hm hx
      rw [mergeLoop_cons, hp]
      simp only
      rw [ih (fun u' hu' => h u' (List.mem_cons_of_mem u hu'))]
      simp

/-- C4. When the identifiers of the English catalog are pairwise distinct, a
second merge against the same English catalog, with the catalog of the first
merge as previous target, produces the catalog of the first merge again,
whatever the translation configuration of the second run; the second run calls
no translation and leaves its client untouched. -/
theorem merge_idempotent {σ τ σ' τ' : Type} (googleTranslate : Bool) (client : Client σ τ)
    (targetLang : τ) (googleTranslate' : Bool) (client' : Client σ' τ') (targetLang' : τ')
    (english trg : Xliff) (lang : String) (s : σ) (s' : σ')
    (hnd : (english.File.Units.map Unit.ID).Nodup) :
    (merge googleTranslate' client' targetLang' english
        (merge googleTranslate client targetLang english trg lang s).trg lang s').trg
      = (merge googleTranslate client targetLang english trg lang s).trg
    ∧ (merge googleTranslate' client' targetLang' english
        (merge googleTranslate client targetLang english trg lang s).trg lang s').calls = []
    ∧ (merge googleTranslate' client' targetLang' english
        (merge googleTranslate client targetLang english trg lang s).trg lang s').st = s' := by
  -- the first run
  set m1 := buildMap trg.File.Units with hm1
  set out1 := (mergeLoop googleTranslate client targetLang m1 english.File.Units s).units
    with hout1
  have hids : out1.map Unit.ID = english.File.Units.map Unit.ID :=
    mergeLoop_units_map_ID _ _ _ _ _ _
  have hnd1 : (out1.map Unit.ID).Nodup := by rw [hids]; exact hnd
  have hget : ∀ i : Nat, out1[i]? = english.File.Units[i]?.map (fun u =>
      mergeUnit googleTranslate client targetLang m1 u
        (mergeLoop googleTranslate client targetLang m1 (english.File.Units.take i) s).st) :=
    fun i => mergeLoop_units_getElem? _ _ _ _ _ _ _
  -- every English unit finds its own merged unit in the map of the second run
  have hfind : ∀ (i : Nat) (u : Unit), english.File.Units[i]? = some u →
      ∃ w x, out1[i]? = some w ∧ buildMap out1 u.ID = some w ∧
        w.Segment.Target = some x ∧ buildUnit u x.Text w.Segment.State = w := by
    intro i u hu
    have hw := hget i
    rw [hu] at hw
    simp only [Option.map_some', mergeUnit] at hw
    obtain ⟨x, hx, hagain⟩ := buildUnit_again u
      (pick googleTranslate client targetLang m1 u
        (mergeLoop googleTranslate client targetLang m1 (english.File.Units.take i) s).st).target
      (pick googleTranslate client targetLang m1 u
        (mergeLoop googleTranslate client targetLang m1 (english.File.Units.take i) s).st).state
    refine ⟨_, x, hw, ?_, hx, hagain⟩
    have hmem : _ ∈ out1 := List.getElem?_mem hw
    have := buildMap_of_mem_nodup out1 _ hmem hnd1
    simpa using this
  have hall : ∀ u ∈ english.File.Units,
      ∃ w x, buildMap out1 u.ID = some w ∧ w.Segment.Target = some x := by
    intro u hu
    obtain ⟨i, hi⟩ := List.getElem?_of_mem hu
    obtain ⟨w, x, -, hm, hx, -⟩ := hfind i u hi
    exact ⟨w, x, hm, hx⟩
  have hloop := mergeLoop_all_retained googleTranslate' client' targetLang' (buildMap out1)
    english.File.Units s' hall
  have hunits : english.File.Units.map (fun u =>
      mergeUnit googleTranslate' client' targetLang' (buildMap out1) u s') = out1 := by
    apply List.ext_getElem?
    intro i
    rw [List.getElem?_map]
    cases hu : english.File.Units[i]? with
    | none =>
        have := hget i
        rw [hu] at this
        simpa using this.symm
    | some u =>
        obtain ⟨w, x, hw, hm, hx, hagain⟩ := hfind i u hu
        simp only [Option.map_some', mergeUnit]
        rw [pick_of_map_target googleTranslate' client' targetLang' (buildMap out1) u w x s'
          hm hx, hw, hagain]
  simp only [merge]
  rw [← hm1, ← hout1, hloop]
  simp [hunits]

/-- The scenario of the spec merged twice, the first time without translation,
the second time with a client that would translate `b`'s text if asked. -/
theorem merge_idempotent_witness :
    (enHelloBye.File.Units.map Unit.ID).Nodup
    ∧ (merge true (constClient "Salut") "fr" enHelloBye
        (merge false failingClient "fr" enHelloBye frBonjour "fr" 0).trg "fr" 0).trg
      = (merge false failingClient "fr" enHelloBye frBonjour "fr" 0).trg :=
  ⟨by decide,
   (merge_idempotent false failingClient "fr" true (constClient "Salut") "fr"
      enHelloBye frBonjour "fr" 0 0 (by decide)).1⟩

/-! ## C5: the brace guard -/

theorem autoTranslate_calls_brace_free {σ τ : Type} (googleTranslate : Bool)
    (client : Client σ τ) (targetLang : τ) (unit : Unit) (s : σ) (t : String)
    (ht : t ∈ (autoTranslate googleTranslate client targetLang unit s).calls) :
    Contains t brace = false := by
  unfold autoTranslate at ht
  split at ht
  · rename_i hcond
    have hb : Contains unit.Segment.Source.Text brace = false := by
      simp only [Bool.and_eq_true, Bool.not_eq_true'] at hcond
      exact hcond.2
    split at ht <;> simp at ht <;> rw [ht] <;> exact hb
  · simp at ht

theorem pick_calls_brace_free {σ τ : Type} (googleTranslate : Bool)
    (client : Client σ τ) (targetLang : τ) (m : UnitMap) (unit : Unit) (s : σ) (t : String)
    (ht : t ∈ (pick googleTranslate client targetLang m unit s).calls) :
    Contains t brace = false := by
  unfold pick at ht
  split at ht
  · split at ht
    · simp at ht
    · exact autoTranslate_calls_brace_free _ _ _ _ _ _ ht
  · exact autoTranslate_calls_brace_free _ _ _ _ _ _ ht

theorem mergeLoop_calls_brace_free {σ τ : Type} (googleTranslate : Bool)
    (client : Client σ τ) (targetLang : τ) (m : UnitMap) (units : List Unit) (s : σ)
    (t : String) (ht : t ∈ (mergeLoop googleTranslate client targetLang m units s).calls) :
    Contains t brace = false := by
  induction units generalizing s with
  | nil => simp [mergeLoop_nil] at ht
  | cons u us ih =>
      rw [mergeLoop_cons] at ht
      rcases List.mem_append.1 ht with h | h
      · exact pick_calls_brace_free _ _ _ _ _ _ _ h
      · exact ih _ h

theorem autoTranslate_of_brace {σ τ : Type} (googleTranslate : Bool)
    (client : Client σ τ) (targetLang : τ) (unit : Unit) (s : σ)
    (hb : Contains unit.Segment.Source.Text brace = true) :
    autoTranslate googleTranslate client targetLang unit s =
      { target := "", state := none, st := s, calls := [] } := by
  simp [autoTranslate, hb]

/-- The unit appended for a source with a brace depends on the map alone. -/
theorem mergeUnit_of_brace {σ τ σ' τ' : Type} (googleTranslate : Bool)
    (client : Client σ τ) (targetLang : τ) (googleTranslate' : Bool)
    (client' : Client σ' τ') (targetLang' : τ') (m : UnitMap) (unit : Unit) (s : σ) (s' : σ')
    (hb : Contains unit.Segment.Source.Text brace = true) :
    mergeUnit googleTranslate client targetLang m unit s =
      mergeUnit googleTranslate' client' targetLang' m unit s' := by
  simp only [mergeUnit, pick, autoTranslate_of_brace _ _ _ _ _ hb]
  cases m unit.ID with
  | none => rfl
  | some val =>
      simp only
      cases hT : val.Segment.Target <;> rfl

/-- C5. In every merge, no text passed to the translation client contains an
opening brace; and the merged unit of an English unit whose source contains one
is the same under every other translation configuration (flag, client, client
state, language tag). -/
theorem brace_guard {σ τ : Type} (googleTranslate : Bool) (client : Client σ τ)
    (targetLang : τ) (english trg : Xliff) (lang : String) (s : σ) :
    (∀ t : String,
        t ∈ (merge googleTranslate client targetLang english trg lang s).calls →
          Contains t brace = false)
    ∧ (∀ (i : Nat) (u : Unit), english.File.Units[i]? = some u →
        Contains u.Segment.Source.Text brace = true →
        ∀ (σ' τ' : Type) (googleTranslate' : Bool) (client' : Client σ' τ')
          (targetLang' : τ') (s' : σ'),
          (merge googleTranslate' client' targetLang' english trg lang s').trg.File.Units[i]?
            = (merge googleTranslate client targetLang english trg lang s).trg.File.Units[i]?)
    := by
  refine ⟨fun t ht => mergeLoop_calls_brace_free _ _ _ _ _ _ t ht, ?_⟩
  intro i u hu hb σ' τ' googleTranslate' client' targetLang' s'
  rw [merge_units_getElem?, merge_units_getElem?, hu]
  simp only [Option.map_some']
  rw [mergeUnit_of_brace googleTranslate' client' targetLang' googleTranslate client
    targetLang (buildMap trg.File.Units) u _ _ hb]

/-- The scenario of the spec with the translation switched on: only `Hello` is
passed to the client, and the unit `b` is what it is without translation. -/
theorem brace_guard_witness :
    (merge true (constClient "Salut") "fr" enHelloBye frNone "fr" 0).calls = ["Hello"]
    ∧ Contains "Hello" brace = false
    ∧ Contains "Bye \x7bname\x7d" brace = true
    ∧ (merge false failingClient "fr" enHelloBye frNone "fr" 7).trg.File.Units[1]?
        = (merge true (constClient "Salut") "fr" enHelloBye frNone "fr" 0).trg.File.Units[1]? :=
  ⟨by decide,
   (brace_guard true (constClient "Salut") "fr" enHelloBye frNone "fr" 0).1 "Hello"
     (by decide),
   by decide,
   (brace_guard true (constClient "Salut") "fr" enHelloBye frNone "fr" 0).2 1
     (mkUnit "b" "Bye \x7bname\x7d" none none) rfl (by decide) Nat String false
     failingClient "fr" 7⟩

/-! ## C6: automatic translation -/

/-- C6, as stated, fails: the unit `c` has no old translation, its source has
no brace, the translation is switched on and the call succeeds with the empty
text; the merged unit has the source text as target and the state `initial`. -/
theorem auto_translate_fails_on_empty_answer :
    ((constClient "").Translate 0 "Submit" "fr").1 = some ""
    ∧ Contains "Submit" brace = false
    ∧ (merge true (constClient "") "fr" enSubmit frNone "fr" 0).trg.File.Units
        = [mkUnit "c" "Submit" (some "Submit") (some "initial")]
    ∧ (merge true (constClient "") "fr" enSubmit frNone "fr" 0).calls = ["Submit"] := by
  decide

/-- C6, amended. When the identifier of the English unit of index `i` has no
old translation, its source text has no opening brace, the translation is
switched on and the call made for this unit succeeds with a non-empty text `t`,
the merged unit of index `i` has the target text `t` and the state
`not-checked`. -/
theorem auto_translate_of_nonempty_answer {σ τ : Type} (googleTranslate : Bool)
    (client : Client σ τ) (targetLang : τ) (english trg : Xliff) (lang : String) (s : σ)
    (i : Nat) (u : Unit) (t : String)
    (hu : english.File.Units[i]? = some u)
    (hprior : NoPrior trg.File.Units u.ID)
    (hbrace : Contains u.Segment.Source.Text brace = false)
    (hon : googleTranslate = true)
    (hanswer : (client.Translate
      (clientStateAt googleTranslate client targetLang english trg i s)
      u.Segment.Source.Text targetLang).1 = some t)
    (hne : t ≠ "") :
    (merge googleTranslate client targetLang english trg lang s).trg.File.Units[i]? =
      some { ID := u.ID,
             Segment := { Source := u.Segment.Source, Target := some ⟨t⟩,
                          State := some ⟨"not-checked"⟩ } } := by
  rw [merge_units_getElem?, hu]
  simp only [Option.map_some', mergeUnit]
  rw [pick_of_noPrior googleTranslate client targetLang trg.File.Units u _ hprior]
  obtain ⟨h1, h2⟩ := autoTranslate_of_answer googleTranslate client targetLang u _ t hon
    hbrace hanswer
  rw [h1, h2, buildUnit_nonempty u t _ hne]

/-- The scenario of the spec: `Submit` is translated to `Envoyer`. -/
theorem auto_translate_of_nonempty_answer_witness :
    (merge true (constClient "Envoyer") "fr" enSubmit frNone "fr" 0).trg.File.Units[0]? =
      some (mkUnit "c" "Submit" (some "Envoyer") (some "not-checked")) :=
  auto_translate_of_nonempty_answer true (constClient "Envoyer") "fr" enSubmit frNone "fr" 0 0
    (mkUnit "c" "Submit" none none) "Envoyer" rfl (Or.inl (by simp [Absent, frNone, mkXliff]))
    (by decide) rfl rfl (by decide)

/-! ## C7 and C8: target text and state of the merged units -/

theorem mem_mergeLoop_units {σ τ : Type} (googleTranslate : Bool) (client : Client σ τ)
    (targetLang : τ) (m : UnitMap) (units : List Unit) (s : σ) (w : Unit)
    (hw : w ∈ (mergeLoop googleTranslate client targetLang m units s).units) :
    ∃ u ∈ units, ∃ s' : σ, w = mergeUnit googleTranslate client targetLang m u s' := by
  induction units generalizing s with
  | nil => simp [mergeLoop_nil] at hw
  | cons u us ih =>
      rw [mergeLoop_cons] at hw
      rcases List.mem_cons.1 hw with h | h
      · exact ⟨u, List.mem_cons_self u us, s, h⟩
      · obtain ⟨u', hu', s', hs'⟩ := ih _ h
        exact ⟨u', List.mem_cons_of_mem u hu', s', hs'⟩

theorem buildMap_mem (l : List Unit) (k : String) (v : Unit) (h : buildMap l k = some v) :
    v ∈ l := by
  induction l using List.reverseRecOn with
  | nil => simp [buildMap_nil] at h
  | append_singleton l a ih =>
      rw [buildMap_snoc] at h
      unfold mapSet at h
      split at h
      · simp at h
        simp [h]
      · exact List.mem_append_left _ (ih h)

theorem buildUnit_target_nonempty (unit : Unit) (target : String) (state : Option State)
    (hsrc : unit.Segment.Source.Text ≠ "") :
    ∃ t : Target, (buildUnit unit target state).Segment.Target = some t ∧ t.Text ≠ "" := by
  by_cases h : target = ""
  · exact ⟨⟨unit.Segment.Source.Text⟩, by simp [buildUnit, h], hsrc⟩
  · exact ⟨⟨target⟩, by simp [buildUnit, h], h⟩

/-- C7, as stated, fails: the English unit `e` has an empty source and no old
translation, and the merged unit `e` has an empty target text. -/
theorem target_empty_for_empty_source :
    (merge false failingClient "fr" enBlank frNone "fr" 0).trg.File.Units
        = [mkUnit "e" "" (some "") (some "initial")]
    ∧ (mkUnit "e" "" (some "") (some "initial")).Segment.Target = some ⟨""⟩ := by
  decide

/-- C7, amended. For every English catalog, previous target catalog and
translation configuration, every unit of the merged output whose source text is
non-empty has a target element with non-empty text. -/
theorem target_nonempty_of_source_nonempty {σ τ : Type} (googleTranslate : Bool)
    (client : Client σ τ) (targetLang : τ) (english trg : Xliff) (lang : String) (s : σ)
    (w : Unit)
    (hw : w ∈ (merge googleTranslate client targetLang english trg lang s).trg.File.Units)
    (hsrc : w.Segment.Source.Text ≠ "") :
    ∃ t : Target, w.Segment.Target = some t ∧ t.Text ≠ "" := by
  obtain ⟨u, -, s', rfl⟩ := mem_mergeLoop_units googleTranslate client targetLang
    (buildMap trg.File.Units) english.File.Units s w hw
  simp only [mergeUnit, buildUnit_Source] at hsrc
  exact buildUnit_target_nonempty u _ _ hsrc

/-- The unit `b` of the scenario, merged without translation, has its source
text as target. -/
theorem target_nonempty_of_source_nonempty_witness :
    ∃ t : Target,
      (mkUnit "b" "Bye \x7bname\x7d" (some "Bye \x7bname\x7d") (some "initial")).Segment.Target
        = some t ∧ t.Text ≠ "" :=
  target_nonempty_of_source_nonempty false failingClient "fr" enHelloBye frBonjour "fr" 0
    (mkUnit "b" "Bye \x7bname\x7d" (some "Bye \x7bname\x7d") (some "initial"))
    (by decide) (by decide)

/-- C8, as stated, fails: the previous unit `a` is translated and has no state
element, and the merged unit `a` has no state. -/
theorem state_absent_when_retained_without_state :
    (merge false failingClient "fr" enHello frNoState "fr" 0).trg.File.Units
        = [mkUnit "a" "Hello" (some "Bonjour") none]
    ∧ (mkUnit "a" "Hello" (some "Bonjour") none).Segment.State = none := by
  decide

/-- C8, amended. For every English catalog, every previous target catalog in
which each unit with a non-empty target text has a state, and every translation
configuration, every unit of the merged output has a state. -/
theorem state_present_of_previous_states {σ τ : Type} (googleTranslate : Bool)
    (client : Client σ τ) (targetLang : τ) (english trg : Xliff) (lang : String) (s : σ)
    (hprev : ∀ v ∈ trg.File.Units, ∀ t : Target,
      v.Segment.Target = some t → t.Text ≠ "" → v.Segment.State ≠ none)
    (w : Unit)
    (hw : w ∈ (merge googleTranslate client targetLang english trg lang s).trg.File.Units) :
    w.Segment.State ≠ none := by
  obtain ⟨u, -, s', rfl⟩ := mem_mergeLoop_units googleTranslate client targetLang
    (buildMap trg.File.Units) english.File.Units s w hw
  have hauto : ∀ s0 : σ,
      (buildUnit u (autoTranslate googleTranslate client targetLang u s0).target
        (autoTranslate googleTranslate client targetLang u s0).state).Segment.State ≠ none := by
    intro s0
    unfold autoTranslate
    split
    · split
      · simp only [buildUnit]; split <;> simp
      · simp [buildUnit]
    · simp [buildUnit]
  simp only [mergeUnit, pick]
  cases hm : buildMap trg.File.Units u.ID with
  | none => exact hauto s'
  | some val =>
      simp only
      cases hT : val.Segment.Target with
      | none => exact hauto s'
      | some t =>
          simp only
          by_cases ht : t.Text = ""
          · simp [buildUnit, ht]
          · rw [buildUnit_nonempty u t.Text _ ht]
            exact hprev val (buildMap_mem _ _ _ hm) t hT ht

/-- The scenario of the spec: the one previous unit has a state, and the
merged units `a` and `b` have one. -/
theorem state_present_of_previous_states_witness :
    (mkUnit "b" "Bye \x7bname\x7d" (some "Bye \x7bname\x7d") (some "initial")).Segment.State
      ≠ none :=
  state_present_of_previous_states false failingClient "fr" enHelloBye frBonjour "fr" 0
    (by decide)
    (mkUnit "b" "Bye \x7bname\x7d" (some "Bye \x7bname\x7d") (some "initial")) (by decide)

/-! ## C9 and C10: the catalog that is saved -/

/-- C9. When the locale of the iteration is `en`, the language of the English
catalog, the catalog passed to `saveXML` is the English catalog as it was read,
with `en` as target-language tag, whatever catalog was read for the locale and
whatever the translation configuration; the client is not called and keeps its
state. -/
theorem same_language_identity {σ τ : Type} (googleTranslate : Bool) (client : Client σ τ)
    (parse : String → Except String τ) (english trg : Xliff) (s : σ) :
    processLocale googleTranslate client parse (.ok english) "en" (.ok trg) s =
      .saved "en" { english with TrgLang := "en" } s [] := by
  simp [processLocale, loadEnglish, loopBody]

/-- C10, as stated, fails: the English catalog has the file identifier
`ngi18n`, the previous French catalog has `legacy`, and the catalog saved for
`fr` has `legacy`. -/
theorem file_id_from_previous_target :
    enHello.File.ID = "ngi18n"
    ∧ frOtherFile.File.ID = "legacy"
    ∧ processLocale false failingClient parseAny (.ok enHello) "fr" (.ok frOtherFile) 0 =
        .saved "fr"
          (mkXliff "fr" "legacy" [mkUnit "a" "Hello" (some "Hello") (some "initial")]) 0 [] := by
  decide

/-- C10, amended. For every merge of a locale other than `en` whose code
`language.Parse` accepts, the catalog passed to `saveXML` is the previous target
catalog with its target-language tag set to the locale and its units replaced
by the merged units: its file identifier is the one of the previous target
catalog, and its target-language tag is the locale. -/
theorem saved_catalog_header {σ τ : Type} (googleTranslate : Bool) (client : Client σ τ)
    (parse : String → Except String τ) (english trg : Xliff) (lang : String) (s : σ)
    (targetLang : τ) (hlang : lang ≠ "en") (hparse : parse lang = .ok targetLang) :
    processLocale googleTranslate client parse (.ok english) lang (.ok trg) s =
        .saved lang
          (merge googleTranslate client targetLang { english with TrgLang := "en" }
            trg lang s).trg
          (merge googleTranslate client targetLang { english with TrgLang := "en" }
            trg lang s).st
          (merge googleTranslate client targetLang { english with TrgLang := "en" }
            trg lang s).calls
    ∧ (merge googleTranslate client targetLang { english with TrgLang := "en" }
          trg lang s).trg =
        { trg with
          TrgLang := lang,
          File := { trg.File with
            Units := (merge googleTranslate client targetLang { english with TrgLang := "en" }
              trg lang s).trg.File.Units } }
    ∧ (merge googleTranslate client targetLang { english with TrgLang := "en" }
          trg lang s).trg.File.ID = trg.File.ID
    ∧ (merge googleTranslate client targetLang { english with TrgLang := "en" }
          trg lang s).trg.TrgLang = lang := by
  refine ⟨?_, rfl, rfl, rfl⟩
  simp [processLocale, loadEnglish, loopBody, hlang, hparse]

/-- The French catalog with the file identifier `legacy` keeps it. -/
theorem saved_catalog_header_witness :
    (merge false failingClient "fr" { enHello with TrgLang := "en" }
        frOtherFile "fr" 0).trg.File.ID = "legacy"
    ∧ (merge false failingClient "fr" { enHello with TrgLang := "en" }
        frOtherFile "fr" 0).trg.TrgLang = "fr" :=
  ⟨(saved_catalog_header false failingClient parseAny enHello frOtherFile "fr" 0 "fr"
      (by decide) rfl).2.2.1,
   (saved_catalog_header false failingClient parseAny enHello frOtherFile "fr" 0 "fr"
      (by decide) rfl).2.2.2⟩

/-! ## C11: `readXML` on a file that does not parse -/

/-- Whenever the file opens and its bytes are read, `readXML` returns the value
that `xml.Unmarshal` left in `q`, and no error, whatever error `xml.Unmarshal`
answered. -/
theorem readXML_of_read {φ β : Type} (os : Reader φ β) (path lang : Bytes)
    (xmlFile : φ) (b : β)
    (hopen : os.Open (fileName path lang) = .ok xmlFile)
    (hread : os.ReadAll xmlFile = .ok b) :
    readXML os path lang = .ok (os.Unmarshal b zeroXliff).1 := by
  simp [readXML, hopen, hread]

/-- C11, on the code: the file `locale/messages.fr.xlf` is read and holds
`not xml`, the decoder answers an error on it, and `readXML` returns the zero
catalog and no error; the iteration for `fr` then merges against that catalog
and saves the result. -/
theorem readXML_accepts_unparseable_file :
    brokenReader.ReadAll (ascii "locale/messages.fr.xlf") = .ok (ascii "not xml")
    ∧ (brokenReader.Unmarshal (ascii "not xml") zeroXliff).2 = some "EOF"
    ∧ readXML brokenReader (ascii "locale") (ascii "fr") = .ok zeroXliff
    ∧ mainLocale false failingClient parseAny brokenReader (ascii "locale") "fr" 0 =
        .saved "fr"
          { zeroXliff with
            TrgLang := "fr",
            File := { zeroXliff.File with
              Units := [mkUnit "a" "Hello" (some "Hello") (some "initial")] } } 0 [] :=
  ⟨rfl, rfl,
   readXML_of_read brokenReader (ascii "locale") (ascii "fr")
     (ascii "locale/messages.fr.xlf") (ascii "not xml") rfl rfl,
   by decide⟩

/-! ## C12: the last unit of an identifier wins -/

/-- C12. When `v` is the last unit of the previous target that carries the
identifier of the English unit of index `i`, the map holds `v` for that
identifier, and the merged unit of index `i` is the one that the merge builds
from a previous target holding `v` alone: with a target element on `v` the
retain branch takes `v`'s target text and state and calls no translation, and
without one the translate-or-fall-back branch runs, whatever the earlier units
with that identifier hold. -/
theorem last_write_wins {σ τ : Type} (googleTranslate : Bool) (client : Client σ τ)
    (targetLang : τ) (english trg : Xliff) (lang : String) (s : σ) (i : Nat) (u v : Unit)
    (hu : english.File.Units[i]? = some u)
    (hv : IsEntry trg.File.Units u.ID v) :
    buildMap trg.File.Units u.ID = some v
    ∧ (merge googleTranslate client targetLang english trg lang s).trg.File.Units[i]? =
        some (mergeUnit googleTranslate client targetLang (buildMap [v]) u
          (clientStateAt googleTranslate client targetLang english trg i s))
    ∧ (∀ (t : Target) (s' : σ), v.Segment.Target = some t →
        pick googleTranslate client targetLang (buildMap trg.File.Units) u s' =
          { target := t.Text, state := v.Segment.State, st := s', calls := [] })
    ∧ (∀ s' : σ, v.Segment.Target = none →
        pick googleTranslate client targetLang (buildMap trg.File.Units) u s' =
          autoTranslate googleTranslate client targetLang u s') := by
  have hm := buildMap_of_isEntry trg.File.Units u.ID v hv
  have hone : buildMap [v] u.ID = some v := by
    obtain ⟨_, _, _, hid, _⟩ := hv
    simp [buildMap, mapSet, emptyMap, hid]
  refine ⟨hm, ?_, ?_, ?_⟩
  · rw [merge_units_getElem?, hu]
    simp only [Option.map_some', mergeUnit, pick, hm, hone]
  · intro t s' ht
    exact pick_of_isEntry googleTranslate client targetLang trg.File.Units u v t s' hv ht
  · intro s' hnone
    exact pick_of_noPrior googleTranslate client targetLang trg.File.Units u s'
      (Or.inr ⟨v, hv, hnone⟩)

/-- The identifier `a` occurs twice in the previous target, translated first
and without target element last: the merged unit is the placeholder. -/
theorem last_write_wins_witness :
    buildMap frTwice.File.Units "a" = some (mkUnit "a" "Hello" none none)
    ∧ (merge false failingClient "fr" enHello frTwice "fr" 0).trg.File.Units[0]? =
        some (mkUnit "a" "Hello" (some "Hello") (some "initial")) :=
  ⟨(last_write_wins false failingClient "fr" enHello frTwice "fr" 0 0
      (mkUnit "a" "Hello" none none) (mkUnit "a" "Hello" none none) rfl
      ⟨[mkUnit "a" "Hello" (some "Salut") (some "final")], [], rfl, rfl, by simp⟩).1,
   (last_write_wins false failingClient "fr" enHello frTwice "fr" 0 0
      (mkUnit "a" "Hello" none none) (mkUnit "a" "Hello" none none) rfl
      ⟨[mkUnit "a" "Hello" (some "Salut") (some "final")], [], rfl, rfl, by simp⟩).2.1⟩

/-! ## C13: the calls of the translation client -/

theorem autoTranslate_calls_length {σ τ : Type} (googleTranslate : Bool)
    (client : Client σ τ) (targetLang : τ) (unit : Unit) (s : σ) :
    (autoTranslate googleTranslate client targetLang unit s).calls.length ≤ 1 := by
  unfold autoTranslate
  split
  · split <;> simp
  · simp

theorem pick_calls_length {σ τ : Type} (googleTranslate : Bool) (client : Client σ τ)
    (targetLang : τ) (m : UnitMap) (unit : Unit) (s : σ) :
    (pick googleTranslate client targetLang m unit s).calls.length ≤ 1 := by
  unfold pick
  split
  · split
    · simp
    · exact autoTranslate_calls_length _ _ _ _ _
  · exact autoTranslate_calls_length _ _ _ _ _

theorem pick_calls_of_disabled {σ τ : Type} (client : Client σ τ) (targetLang : τ)
    (m : UnitMap) (unit : Unit) (s : σ) :
    (pick false client targetLang m unit s).calls = [] ∧
      (pick false client targetLang m unit s).st = s := by
  unfold pick
  split
  · split
    · exact ⟨rfl, rfl⟩
    · simp [autoTranslate]
  · simp [autoTranslate]

theorem mergeLoop_calls_of_disabled {σ τ : Type} (client : Client σ τ) (targetLang : τ)
    (m : UnitMap) (units : List Unit) (s : σ) :
    (mergeLoop false client targetLang m units s).calls = [] := by
  induction units generalizing s with
  | nil => rfl
  | cons u us ih =>
      rw [mergeLoop_cons]
      simp [(pick_calls_of_disabled client targetLang m u s).1, ih]

/-- The call log of the loop is the concatenation, in the order of the units,
of the calls of each iteration. -/
theorem mergeLoop_calls_eq {σ τ : Type} (googleTranslate : Bool) (client : Client σ τ)
    (targetLang : τ) (m : UnitMap) (units : List Unit) (s : σ) :
    (mergeLoop googleTranslate client targetLang m units s).calls =
      (List.range units.length).flatMap (fun i =>
        match units[i]? with
        | none => []
        | some unit =>
            (pick googleTranslate client targetLang m unit
              (mergeLoop googleTranslate client targetLang m (units.take i) s).st).calls) := by
  induction units generalizing s with
  | nil => rfl
  | cons u us ih =>
      rw [mergeLoop_cons, List.length_cons, List.range_succ_eq_map, List.flatMap_cons]
      simp only [List.getElem?_cons_zero, List.take_zero, mergeLoop_nil]
      rw [ih, List.flatMap_map]
      congr 1
      congr 1
      funext i
      simp only [Nat.succ_eq_add_one, List.getElem?_cons_succ, List.take_succ_cons,
        mergeLoop_cons]

/-- C13. In one merge the call log is the concatenation, unit by unit, of the
calls made in each iteration; an iteration makes at most one call; it makes none
for a unit whose identifier has an entry with a target element in the previous
target; and with the translation switched off the log is empty. -/
theorem translate_at_most_once {σ τ : Type} (googleTranslate : Bool) (client : Client σ τ)
    (targetLang : τ) (english trg : Xliff) (lang : String) (s : σ) :
    (merge googleTranslate client targetLang english trg lang s).calls =
        (List.range english.File.Units.length).flatMap
          (fun i => callsAt googleTranslate client targetLang english trg i s)
    ∧ (∀ i : Nat,
        (callsAt googleTranslate client targetLang english trg i s).length ≤ 1)
    ∧ (∀ (i : Nat) (u v : Unit) (t : Target), english.File.Units[i]? = some u →
        IsEntry trg.File.Units u.ID v → v.Segment.Target = some t →
        callsAt googleTranslate client targetLang english trg i s = [])
    ∧ (merge false client targetLang english trg lang s).calls = [] := by
  refine ⟨?_, ?_, ?_, mergeLoop_calls_of_disabled _ _ _ _ _⟩
  · exact mergeLoop_calls_eq _ _ _ _ _ _
  · intro i
    unfold callsAt
    split
    · simp
    · exact pick_calls_length _ _ _ _ _ _
  · intro i u v t hu hv ht
    unfold callsAt
    rw [hu]
    simp only
    rw [pick_of_isEntry googleTranslate client targetLang trg.File.Units u v t _ hv ht]

/-- The scenario of the spec with the translation switched on and a third unit
`c`: `a` is retained, `b` has a brace, and the client is called once, for `c`. -/
theorem translate_at_most_once_witness :
    (merge true (constClient "Envoyer") "fr"
        (mkXliff "" "ngi18n"
          [mkUnit "a" "Hello" none none, mkUnit "b" "Bye \x7bname\x7d" none none,
           mkUnit "c" "Submit" none none])
        frBonjour "fr" 0).calls = ["Submit"]
    ∧ callsAt true (constClient "Envoyer") "fr"
        (mkXliff "" "ngi18n"
          [mkUnit "a" "Hello" none none, mkUnit "b" "Bye \x7bname\x7d" none none,
           mkUnit "c" "Submit" none none])
        frBonjour 0 0 = [] :=
  ⟨by decide,
   (translate_at_most_once true (constClient "Envoyer") "fr"
      (mkXliff "" "ngi18n"
        [mkUnit "a" "Hello" none none, mkUnit "b" "Bye \x7bname\x7d" none none,
         mkUnit "c" "Submit" none none])
      frBonjour "fr" 0).2.2.1 0 (mkUnit "a" "Hello" none none)
      (mkUnit "a" "Hello" (some "Bonjour") (some "final")) ⟨"Bonjour"⟩ rfl
      ⟨[], [], rfl, rfl, by simp⟩ rfl⟩

/-! ## C14: what the merge writes -/

theorem foldl_storeInsert {σ : Type} (units : List Unit) (S : Store σ) :
    units.foldl storeInsert S =
      { S with m := units.foldl (fun m unit => mapSet m unit.ID unit) S.m } := by
  induction units generalizing S with
  | nil => rfl
  | cons u us ih => rw [List.foldl_cons, ih]; rfl

theorem foldl_storeAppend {σ τ : Type} (googleTranslate : Bool) (client : Client σ τ)
    (targetLang : τ) (units : List Unit) (S : Store σ) :
    units.foldl (storeAppend googleTranslate client targetLang) S =
      { S with
        trg := { S.trg with
          File := { S.trg.File with
            Units := S.trg.File.Units ++
              (mergeLoop googleTranslate client targetLang S.m units S.st).units } },
        st := (mergeLoop googleTranslate client targetLang S.m units S.st).st,
        calls := S.calls ++
          (mergeLoop googleTranslate client targetLang S.m units S.st).calls } := by
  induction units generalizing S with
  | nil => simp [mergeLoop_nil]
  | cons u us ih =>
      rw [List.foldl_cons, ih, mergeLoop_cons]
      simp [storeAppend, mergeUnit]

/-- C14, as stated, fails for the previous target catalog: before the merge
it has no target-language tag and a unit `a` without target; when line 118 is
reached the same catalog has the tag `fr` and the merged unit `a`. -/
theorem previous_target_is_overwritten :
    frUntagged.TrgLang = ""
    ∧ frUntagged.File.Units = [mkUnit "a" "Hello" none none]
    ∧ (mergeStore false failingClient "fr" enHello frUntagged "fr" 0).trg.TrgLang = "fr"
    ∧ (mergeStore false failingClient "fr" enHello frUntagged "fr" 0).trg.File.Units
        = [mkUnit "a" "Hello" (some "Hello") (some "initial")]
    ∧ (mergeStore false failingClient "fr" enHello frUntagged "fr" 0).trg ≠ frUntagged := by
  decide

/-- C14, amended. After the merge of a locale the English catalog has the
value it had before; the previous target catalog has its target-language tag
set to the locale and its unit list replaced by the merged units, and its other
fields (version, namespace, source language, file original and identifier) are
as before.  The catalog, client state and call log are those of `merge`. -/
theorem merge_store_frame {σ τ : Type} (googleTranslate : Bool) (client : Client σ τ)
    (targetLang : τ) (english trg : Xliff) (lang : String) (s : σ) :
    (mergeStore googleTranslate client targetLang english trg lang s).english = english
    ∧ (mergeStore googleTranslate client targetLang english trg lang s).trg =
        { trg with
          TrgLang := lang,
          File := { trg.File with
            Units := (merge googleTranslate client targetLang english trg lang
              s).trg.File.Units } }
    ∧ (mergeStore googleTranslate client targetLang english trg lang s).trg =
        (merge googleTranslate client targetLang english trg lang s).trg
    ∧ (mergeStore googleTranslate client targetLang english trg lang s).st =
        (merge googleTranslate client targetLang english trg lang s).st
    ∧ (mergeStore googleTranslate client targetLang english trg lang s).calls =
        (merge googleTranslate client targetLang english trg lang s).calls := by
  simp only [mergeStore, foldl_storeInsert, foldl_storeAppend, merge]
  simp [buildMap]

/-! ## C15: locale discovery -/

/-- C15, as stated, fails: the entry `messages.zh-CN.xlf` has the locale code
segment `zh-CN`, the discovered locale is `zh`, and the file read and written
for it is `messages.zh.xlf`. -/
theorem discovery_cuts_long_codes :
    discoverLocales [] [ascii "messages.zh-CN.xlf"] = some [ascii "zh"]
    ∧ ascii "zh" ≠ ascii "zh-CN"
    ∧ fileName (ascii "locale") (ascii "zh") = ascii "locale/messages.zh.xlf"
    ∧ ascii "locale/messages.zh.xlf" ≠ ascii "locale/messages.zh-CN.xlf" := by
  decide

/-- C15, amended. For every directory entry named `messages.<code>.xlf` whose
locale code segment is two bytes long, the loop of lines 50-55 appends exactly
that segment to the discovered locales, and the file name later built for the
discovered locale is the name of that entry under the directory path. -/
theorem discovery_of_two_byte_code (locales : List Bytes) (files : List Bytes)
    (path code : Bytes) (hcode : code.length = 2) :
    discoverLocales locales ((ascii "messages." ++ code ++ ascii ".xlf") :: files)
        = discoverLocales (locales ++ [code]) files
    ∧ fileName path code = path ++ ascii "/" ++ (ascii "messages." ++ code ++ ascii ".xlf") := by
  have hx : ascii ".xlf" = [46, 120, 108, 102] := by decide
  have hm : ascii "messages." = [109, 101, 115, 115, 97, 103, 101, 115, 46] := by decide
  have hs : ascii "/messages." = [47, 109, 101, 115, 115, 97, 103, 101, 115, 46] := by decide
  have hsl : ascii "/" = [47] := by decide
  match code, hcode with
  | [a, b], _ =>
      constructor
      · simp [discoverLocales, HasSuffix, slice, hx, hm]
      · simp [fileName, hx, hm, hs, hsl]

/-- The entry `messages.fr.xlf` gives the locale `fr`, and the file read for
`fr` under `locale` is `locale/messages.fr.xlf`. -/
theorem discovery_of_two_byte_code_witness :
    discoverLocales [] [ascii "messages.fr.xlf"] = some [ascii "fr"]
    ∧ fileName (ascii "locale") (ascii "fr") = ascii "locale/messages.fr.xlf" :=
  ⟨(discovery_of_two_byte_code [] [] (ascii "locale") (ascii "fr") rfl).1,
   (discovery_of_two_byte_code [] [] (ascii "locale") (ascii "fr") rfl).2⟩

/-! ## C16: the target element of the merged units -/

theorem buildUnit_target_cases (unit : Unit) (target : String) (state : Option State) :
    ∃ t : Target, (buildUnit unit target state).Segment.Target = some t ∧
      (t.Text = "" → unit.Segment.Source.Text = "") := by
  by_cases h : target = ""
  · exact ⟨⟨unit.Segment.Source.Text⟩, by simp [buildUnit, h], fun h' => h'⟩
  · exact ⟨⟨target⟩, by simp [buildUnit, h], fun h' => absurd h' h⟩

/-- C16. For every merge, the merged unit of every index `i` of the English
catalog exists and has a target element; its text is empty only if the source
text of the English unit of index `i` is empty, so a non-empty source gives a
non-empty target. -/
theorem merged_target_present {σ τ : Type} (googleTranslate : Bool) (client : Client σ τ)
    (targetLang : τ) (english trg : Xliff) (lang : String) (s : σ) (i : Nat) (u : Unit)
    (hu : english.File.Units[i]? = some u) :
    ∃ (w : Unit) (t : Target),
      (merge googleTranslate client targetLang english trg lang s).trg.File.Units[i]? = some w
      ∧ w.Segment.Target = some t
      ∧ (t.Text = "" → u.Segment.Source.Text = "")
      ∧ (u.Segment.Source.Text ≠ "" → t.Text ≠ "") := by
  rw [merge_units_getElem?, hu]
  simp only [Option.map_some', mergeUnit]
  obtain ⟨t, ht, hempty⟩ := buildUnit_target_cases u
    (pick googleTranslate client targetLang (buildMap trg.File.Units) u
      (clientStateAt googleTranslate client targetLang english trg i s)).target
    (pick googleTranslate client targetLang (buildMap trg.File.Units) u
      (clientStateAt googleTranslate client targetLang english trg i s)).state
  exact ⟨_, t, rfl, ht, hempty, fun hne hc => hne (hempty hc)⟩

/-- The unit of index 1 of the scenario, with a client that answers the empty
text to every call: the merged unit has a target element. -/
theorem merged_target_present_witness :
    ∃ (w : Unit) (t : Target),
      (merge true (constClient "") "fr" enHelloBye frNone "fr" 0).trg.File.Units[1]? = some w
      ∧ w.Segment.Target = some t
      ∧ (t.Text = "" → (mkUnit "b" "Bye \x7bname\x7d" none none).Segment.Source.Text = "")
      ∧ ((mkUnit "b" "Bye \x7bname\x7d" none none).Segment.Source.Text ≠ "" → t.Text ≠ "") :=
  merged_target_present true (constClient "") "fr" enHelloBye frNone "fr" 0 1
    (mkUnit "b" "Bye \x7bname\x7d" none none) rfl

/-! ## C17: the state of the merged units -/

theorem buildUnit_autoTranslate_state {σ τ : Type} (googleTranslate : Bool)
    (client : Client σ τ) (targetLang : τ) (unit : Unit) (s : σ) :
    (buildUnit unit (autoTranslate googleTranslate client targetLang unit s).target
        (autoTranslate googleTranslate client targetLang unit s).state).Segment.State
          = some ⟨"initial"⟩
    ∨ (buildUnit unit (autoTranslate googleTranslate client targetLang unit s).target
        (autoTranslate googleTranslate client targetLang unit s).state).Segment.State
          = some ⟨"not-checked"⟩ := by
  unfold autoTranslate
  split
  · split
    · simp only [buildUnit]
      split
      · exact Or.inl rfl
      · exact Or.inr rfl
    · exact Or.inl (by simp [buildUnit])
  · exact Or.inl (by simp [buildUnit])

/-- C17. A merged unit without state comes from the retain branch: the last
previous unit with its identifier has a target element with non-empty text, which
is the merged target, and no state.  Consequently, when every previous unit
that has a target element has a state, every merged unit has a state, which is
`initial`, `not-checked`, or the state of a previous unit. -/
theorem absent_state_only_when_retained {σ τ : Type} (googleTranslate : Bool)
    (client : Client σ τ) (targetLang : τ) (english trg : Xliff) (lang : String) (s : σ) :
    (∀ (i : Nat) (u w : Unit), english.File.Units[i]? = some u →
        (merge googleTranslate client targetLang english trg lang s).trg.File.Units[i]?
          = some w →
        w.Segment.State = none →
        ∃ (v : Unit) (t : Target), IsEntry trg.File.Units u.ID v ∧ v.Segment.Target = some t
          ∧ t.Text ≠ "" ∧ v.Segment.State = none ∧ w.Segment.Target = some t)
    ∧ ((∀ v ∈ trg.File.Units, v.Segment.Target ≠ none → v.Segment.State ≠ none) →
        ∀ w ∈ (merge googleTranslate client targetLang english trg lang s).trg.File.Units,
          ∃ st : State, w.Segment.State = some st ∧
            (st = ⟨"initial"⟩ ∨ st = ⟨"not-checked"⟩ ∨
              ∃ v ∈ trg.File.Units, v.Segment.State = some st)) := by
  constructor
  · intro i u w hu hw hnone
    rw [merge_units_getElem?, hu] at hw
    simp only [Option.map_some', Option.some.injEq] at hw
    subst hw
    have hauto : ∀ s0 : σ,
        (buildUnit u (autoTranslate googleTranslate client targetLang u s0).target
          (autoTranslate googleTranslate client targetLang u s0).state).Segment.State
            ≠ none := by
      intro s0
      rcases buildUnit_autoTranslate_state googleTranslate client targetLang u s0 with h | h
        <;> rw [h] <;> simp
    simp only [mergeUnit, pick] at hnone ⊢
    cases hm : buildMap trg.File.Units u.ID with
    | none =>
        rw [hm] at hnone
        exact absurd hnone (hauto _)
    | some val =>
        rw [hm] at hnone
        simp only at hnone ⊢
        cases hT : val.Segment.Target with
        | none =>
            rw [hT] at hnone
            exact absurd hnone (hauto _)
        | some t =>
            rw [hT] at hnone
            simp only at hnone ⊢
            by_cases ht : t.Text = ""
            · simp [buildUnit, ht] at hnone
            · rw [buildUnit_nonempty u t.Text _ ht] at hnone
              refine ⟨val, t, isEntry_of_buildMap _ _ _ hm, hT, ht, hnone, ?_⟩
              rw [buildUnit_nonempty u t.Text _ ht]
  · intro hprev w hw
    obtain ⟨u, -, s', rfl⟩ := mem_mergeLoop_units googleTranslate client targetLang
      (buildMap trg.File.Units) english.File.Units s w hw
    have hauto : ∀ s0 : σ, ∃ st : State,
        (buildUnit u (autoTranslate googleTranslate client targetLang u s0).target
          (autoTranslate googleTranslate client targetLang u s0).state).Segment.State
            = some st ∧
          (st = ⟨"initial"⟩ ∨ st = ⟨"not-checked"⟩ ∨
            ∃ v ∈ trg.File.Units, v.Segment.State = some st) := by
      intro s0
      rcases buildUnit_autoTranslate_state googleTranslate client targetLang u s0 with h | h
      · exact ⟨_, h, Or.inl rfl⟩
      · exact ⟨_, h, Or.inr (Or.inl rfl)⟩
    simp only [mergeUnit, pick]
    cases hm : buildMap trg.File.Units u.ID with
    | none => exact hauto s'
    | some val =>
        simp only
        cases hT : val.Segment.Target with
        | none => exact hauto s'
        | some t =>
            simp only
            by_cases ht : t.Text = ""
            · exact ⟨⟨"initial"⟩, by simp [buildUnit, ht], Or.inl rfl⟩
            · rw [buildUnit_nonempty u t.Text _ ht]
              have hmem := buildMap_mem _ _ _ hm
              have hsome := hprev val hmem (by rw [hT]; simp)
              cases hS : val.Segment.State with
              | none => exact absurd hS hsome
              | some st => exact ⟨st, rfl, Or.inr (Or.inr ⟨val, hmem, hS⟩)⟩

/-- The previous unit `a` is translated and has no state, and the merged unit
`a` has none: the entry that the theorem finds is that unit.  In the scenario of
the spec every previous unit has a state, and so has every merged unit. -/
theorem absent_state_only_when_retained_witness :
    (∃ (v : Unit) (t : Target), IsEntry frNoState.File.Units "a" v
        ∧ v.Segment.Target = some t ∧ t.Text ≠ "" ∧ v.Segment.State = none
        ∧ (mkUnit "a" "Hello" (some "Bonjour") none).Segment.Target = some t)
    ∧ (∃ st : State,
        (mkUnit "a" "Hello" (some "Bonjour") (some "final")).Segment.State = some st ∧
          (st = ⟨"initial"⟩ ∨ st = ⟨"not-checked"⟩ ∨
            ∃ v ∈ frBonjour.File.Units, v.Segment.State = some st)) :=
  ⟨(absent_state_only_when_retained false failingClient "fr" enHello frNoState "fr" 0).1 0
      (mkUnit "a" "Hello" none none) (mkUnit "a" "Hello" (some "Bonjour") none) rfl
      (by decide) rfl,
   (absent_state_only_when_retained false failingClient "fr" enHelloBye frBonjour "fr" 0).2
      (by decide) (mkUnit "a" "Hello" (some "Bonjour") (some "final")) (by decide)⟩

/-! ## C18: a previous target element with empty text -/

theorem mergeLoop_snoc_st {σ τ : Type} (googleTranslate : Bool) (client : Client σ τ)
    (targetLang : τ) (m : UnitMap) (units : List Unit) (u : Unit) (s : σ) :
    (mergeLoop googleTranslate client targetLang m (units ++ [u]) s).st =
      (pick googleTranslate client targetLang m u
        (mergeLoop googleTranslate client targetLang m units s).st).st := by
  simp [mergeLoop, List.foldl_append, loopStep]

/-- C18. When the last previous unit with the identifier of the English unit
of index `i` has a target element with empty text, the iteration for that unit
passes nothing to the translation client and leaves its state as it was,
whatever the flag and the source text, and the merged unit has the English
source text as target and the state `initial`, whatever state the previous unit
had. -/
theorem empty_target_not_translated {σ τ : Type} (googleTranslate : Bool)
    (client : Client σ τ) (targetLang : τ) (english trg : Xliff) (lang : String) (s : σ)
    (i : Nat) (u v : Unit) (t : Target)
    (hu : english.File.Units[i]? = some u)
    (hv : IsEntry trg.File.Units u.ID v)
    (ht : v.Segment.Target = some t)
    (hempty : t.Text = "") :
    (merge googleTranslate client targetLang english trg lang s).trg.File.Units[i]? =
        some { ID := u.ID,
               Segment := { Source := u.Segment.Source,
                            Target := some ⟨u.Segment.Source.Text⟩,
                            State := some ⟨"initial"⟩ } }
    ∧ callsAt googleTranslate client targetLang english trg i s = []
    ∧ clientStateAt googleTranslate client targetLang english trg (i + 1) s =
        clientStateAt googleTranslate client targetLang english trg i s := by
  have hp := fun s' => pick_of_isEntry googleTranslate client targetLang trg.File.Units
    u v t s' hv ht
  refine ⟨?_, ?_, ?_⟩
  · rw [merge_units_getElem?, hu]
    simp only [Option.map_some', mergeUnit]
    rw [hp, hempty, buildUnit_empty]
  · unfold callsAt
    rw [hu]
    simp only
    rw [hp]
  · simp only [clientStateAt]
    rw [List.take_succ, hu, Option.toList_some, mergeLoop_snoc_st, hp]

/-- The previous unit `a` has an empty target element and the state `final`;
with the translation switched on and a source without brace, the client is not
called and the merged unit is the placeholder. -/
theorem empty_target_not_translated_witness :
    Contains "Hello" brace = false
    ∧ (merge true (constClient "Salut") "fr" enHello frEmptyTarget "fr" 0).trg.File.Units[0]?
        = some (mkUnit "a" "Hello" (some "Hello") (some "initial"))
    ∧ callsAt true (constClient "Salut") "fr" enHello frEmptyTarget 0 0 = []
    ∧ (merge true (constClient "Salut") "fr" enHello frEmptyTarget "fr" 0).calls = [] :=
  ⟨by decide,
   (empty_target_not_translated true (constClient "Salut") "fr" enHello frEmptyTarget "fr" 0 0
      (mkUnit "a" "Hello" none none) (mkUnit "a" "Hello" (some "") (some "final")) ⟨""⟩
      rfl ⟨[], [], rfl, rfl, by simp⟩ rfl rfl).1,
   (empty_target_not_translated true (constClient "Salut") "fr" enHello frEmptyTarget "fr" 0 0
      (mkUnit "a" "Hello" none none) (mkUnit "a" "Hello" (some "") (some "final")) ⟨""⟩
      rfl ⟨[], [], rfl, rfl, by simp⟩ rfl rfl).2.1,
   by decide⟩

end XliffMerge
